import Mathlib

/-!
Verification development for the Twitter Feed Display System
(handle registry, tweet store, fetcher, rotation service, stats
aggregator, and the React display/admin clients).

The relational schema is embedded from src/database/schema.sql and the
two React components from src/frontend/src/components.  The FastAPI
backend sources are not part of the repository snapshot, so the server
operations (getNext, markDisplayed, refresh, getStats, handle CRUD) are
modelled from the specification text, faithful to its words, on top of
the schema's tables.
-/

/-- A row of the `tweets` table (src/database/schema.sql, lines 19-31). -/
structure Tweet where
  tweet_id : String
  text : String
  author_handle : String
  author_name : Option String
  created_at_twitter : Nat
  media_url : Option String
  tweet_url : String
  is_displayed : Bool
  displayed_at : Option Nat
  fetched_at : Nat
deriving DecidableEq, Repr

/-- A row of the `twitter_handles` table (src/database/schema.sql, lines 10-16). -/
structure Handle where
  id : Nat
  handle : String
  is_active : Bool
  created_at : Nat
  updated_at : Nat
deriving DecidableEq, Repr

/-- A row of the `displayed_tweets` audit table
(src/database/schema.sql, lines 34-38): `tweet_id` is UNIQUE and
REFERENCES tweets(tweet_id) ON DELETE CASCADE. -/
structure DispRow where
  id : Nat
  tweet_id : String
  displayed_at : Nat
deriving DecidableEq, Repr

/-- Whether the store already holds a tweet with the given external id
(the `tweets.tweet_id UNIQUE` constraint is checked against this). -/
def hasTweetId (s : List Tweet) (tid : String) : Bool :=
  s.any (fun t => t.tweet_id == tid)

/-- Modelled from the spec: the Rotation Service `getNext()` (backend
source absent from the snapshot): returns one tweet with
displayed = false in a deterministic order (store order = fetch order,
oldest first); `none` models the NotFound failure. -/
def getNext (s : List Tweet) : Option Tweet :=
  s.find? (fun t => !t.is_displayed)

/-- Mark one tweet row displayed, recording the displayed-at timestamp;
re-marking an already displayed row has no additional effect. -/
def markTweet (t : Tweet) (now : Nat) : Tweet :=
  if t.is_displayed then t
  else { t with is_displayed := true, displayed_at := some now }

/-- Set displayed = true on every row carrying the given external id. -/
def markStore (s : List Tweet) (tid : String) (now : Nat) : List Tweet :=
  s.map (fun t => if t.tweet_id == tid then markTweet t now else t)

/-- Modelled from the spec: the Rotation Service `markDisplayed(tweetId)`
(backend source absent from the snapshot): sets displayed = true and
records displayed-at; idempotent; `none` models NotFound for an unknown
id. -/
def markDisplayed (s : List Tweet) (tid : String) (now : Nat) : Option (List Tweet) :=
  if hasTweetId s tid then some (markStore s tid now) else none

/-- Every stored row with the given external id has displayed = true. -/
def markedAll (s : List Tweet) (tid : String) : Bool :=
  s.all (fun t => !(t.tweet_id == tid) || t.is_displayed)

/-- One observable call against the Rotation Service. -/
inductive RotOp
  | next
  | mark (tid : String) (now : Nat)
deriving DecidableEq, Repr

/-- Effect of one Rotation Service call on the store: `getNext` reads
only; a failed `markDisplayed` (NotFound) leaves the store unchanged. -/
def runOp (s : List Tweet) : RotOp → List Tweet
  | .next => s
  | .mark tid now => (markDisplayed s tid now).getD s

/-- Effect of a sequence of Rotation Service calls. -/
def runOps (s : List Tweet) (ops : List RotOp) : List Tweet :=
  ops.foldl runOp s

/-- A store with one displayed and one undisplayed tweet, used to
instantiate the rotation theorems. -/
def demoT1 : Tweet :=
  { tweet_id := "t1", text := "hello", author_handle := "alice",
    author_name := none, created_at_twitter := 0, media_url := none,
    tweet_url := "u1", is_displayed := true, displayed_at := some 1, fetched_at := 0 }

/-- An undisplayed companion tweet for the demo store. -/
def demoT2 : Tweet :=
  { tweet_id := "t2", text := "world", author_handle := "bob",
    author_name := none, created_at_twitter := 1, media_url := none,
    tweet_url := "u2", is_displayed := false, displayed_at := none, fetched_at := 1 }

/-- Demo tweet store. -/
def demoStore : List Tweet := [demoT1, demoT2]

/-- A tweet as returned by the external API (or by the mock generator):
the fields the Fetcher copies into a `tweets` row. -/
structure ExtTweet where
  tweet_id : String
  text : String
  author_name : Option String
  created_at : Nat
  media_url : Option String
  tweet_url : String
deriving DecidableEq, Repr

/-- The `tweets` row built from one external tweet for a handle. -/
def newTweet (h : String) (e : ExtTweet) (now : Nat) : Tweet :=
  { tweet_id := e.tweet_id, text := e.text, author_handle := h,
    author_name := e.author_name, created_at_twitter := e.created_at,
    media_url := e.media_url, tweet_url := e.tweet_url,
    is_displayed := false, displayed_at := none, fetched_at := now }

/-- Counters the Fetcher reports: {new, skipped, handles_processed}. -/
structure RefreshStats where
  new : Nat
  skipped : Nat
  handles_processed : Nat
deriving DecidableEq, Repr

/-- Modelled from the spec: the Fetcher's per-handle ingestion loop
(backend source absent from the snapshot): each returned tweet is
inserted only if its external id is not already present, otherwise
counted as skipped. Returns (store, inserted, skipped). -/
def insertTweets (st : List Tweet) (h : String) (ts : List ExtTweet) (now : Nat) :
    List Tweet × Nat × Nat :=
  match ts with
  | [] => (st, 0, 0)
  | e :: rest =>
      if hasTweetId st e.tweet_id then
        let r := insertTweets st h rest now
        (r.1, r.2.1, r.2.2 + 1)
      else
        let r := insertTweets (st ++ [newTweet h e now]) h rest now
        (r.1, r.2.1 + 1, r.2.2)

/-- Ingestion over a list of handles, accumulating the counters. -/
def refreshHandles (hs : List Handle) (api : String → List ExtTweet)
    (st : List Tweet) (now : Nat) : List Tweet × RefreshStats :=
  match hs with
  | [] => (st, ⟨0, 0, 0⟩)
  | h :: rest =>
      let r := insertTweets st h.handle (api h.handle) now
      let r2 := refreshHandles rest api r.1 now
      (r2.1, ⟨r.2.1 + r2.2.new, r.2.2 + r2.2.skipped, 1 + r2.2.handles_processed⟩)

/-- Modelled from the spec: the Fetcher `refresh()` (backend source
absent from the snapshot): for each active handle, requests recent
tweets (`api` stands for the external response, identical across calls
when comparing two runs) and ingests them with at-most-once semantics. -/
def refresh (handles : List Handle) (api : String → List ExtTweet)
    (st : List Tweet) (now : Nat) : List Tweet × RefreshStats :=
  refreshHandles (handles.filter (fun h => h.is_active)) api st now

/-- The `tweets.tweet_id UNIQUE` constraint as a store invariant. -/
def uniqueIds (s : List Tweet) : Prop :=
  (s.map Tweet.tweet_id).Nodup

instance : DecidablePred uniqueIds := fun s =>
  List.nodupDecidable (s.map Tweet.tweet_id)

/-- Number of stored rows carrying a given external id. -/
def countId (s : List Tweet) (tid : String) : Nat :=
  (s.filter (fun t => t.tweet_id == tid)).length

/-- The external response of some active handle contains this id. -/
def apiHasId (handles : List Handle) (api : String → List ExtTweet) (tid : String) : Bool :=
  handles.any (fun h => h.is_active && (api h.handle).any (fun e => e.tweet_id == tid))

/-- Demo handle for witnesses. -/
def demoHandle : Handle :=
  { id := 1, handle := "alice", is_active := true, created_at := 0, updated_at := 0 }

/-- Demo external tweet for witnesses. -/
def demoExt : ExtTweet :=
  { tweet_id := "x1", text := "hi", author_name := none, created_at := 0,
    media_url := none, tweet_url := "u" }

/-- Demo external API response: one tweet for every handle. -/
def demoApi : String → List ExtTweet := fun _ => [demoExt]

/-- The Stats Aggregator's output record
({total_tweets, displayed_tweets, remaining_tweets, active_handles}). -/
structure StatsOut where
  total_tweets : Nat
  displayed_tweets : Nat
  remaining_tweets : Nat
  active_handles : Nat
deriving DecidableEq, Repr

/-- Modelled from the spec: the Stats Aggregator `getStats()` (backend
source absent from the snapshot): direct counts over the current store
state, computed fresh on every call with no caching. -/
def getStats (tweets : List Tweet) (handles : List Handle) : StatsOut :=
  { total_tweets := tweets.length,
    displayed_tweets := (tweets.filter (fun t => t.is_displayed)).length,
    remaining_tweets := (tweets.filter (fun t => !t.is_displayed)).length,
    active_handles := (handles.filter (fun h => h.is_active)).length }

/-- Outcome of the Handle Registry `add` operation. -/
inductive AddResult
  | created (hd : Handle)
  | conflict
deriving DecidableEq, Repr

/-- Modelled from the spec: the Handle Registry `add(handle)` (backend
source absent from the snapshot): fails with Conflict when the handle
already exists, by the case-sensitive comparison the
`twitter_handles.handle UNIQUE` constraint performs; otherwise appends
the new row. Returns (outcome, registry afterwards). -/
def addHandle (reg : List Handle) (h : String) (active : Bool) (nid now : Nat) :
    AddResult × List Handle :=
  if reg.any (fun r => r.handle == h) then (AddResult.conflict, reg)
  else (AddResult.created ⟨nid, h, active, now, now⟩, reg ++ [⟨nid, h, active, now, now⟩])

/-- Modelled from the spec: one synthetic mock tweet (mock-data
fallback of the Fetcher; backend source absent from the snapshot).
Ids embed the handle and index so a batch is self-consistent. -/
def mockExtTweet (h : String) (now k : Nat) : ExtTweet :=
  { tweet_id := "mock-" ++ h ++ "-" ++ toString now ++ "-" ++ toString k,
    text := "Mock tweet " ++ toString k ++ " from @" ++ h,
    author_name := some h, created_at := now, media_url := none,
    tweet_url := "https://twitter.com/" ++ h ++ "/status/mock" ++ toString k }

/-- Modelled from the spec: the synthetic response used when the
external API fails: `count` mock tweets per handle. -/
def mockApi (count now : Nat) : String → List ExtTweet :=
  fun h => (List.range count).map (fun k => mockExtTweet h now k)

/-- Number of undisplayed tweets left in the store. -/
def countRemaining (s : List Tweet) : Nat :=
  (s.filter (fun t => !t.is_displayed)).length

/-- One display round against the store: getNext, then markDisplayed on
the returned tweet (the caller-side rotation policy); no-op when getNext
reports NotFound. -/
def roundStore (s : List Tweet) (now : Nat) : List Tweet :=
  match getNext s with
  | none => s
  | some t => (markDisplayed s t.tweet_id now).getD s

/-- Store after `k` display rounds. -/
def runRounds : Nat → List Tweet → List Tweet
  | 0, s => s
  | k+1, s => runRounds k (roundStore s 0)

/-- The tweets getNext hands out over `k` display rounds, in order. -/
def traceRounds : Nat → List Tweet → List Tweet
  | 0, _ => []
  | k+1, s =>
      match getNext s with
      | none => []
      | some t => t :: traceRounds k (roundStore s 0)

/-- Store produced by one refresh of the empty store over the
mock-data responses. -/
def mockRefreshStore (handles : List Handle) (count now : Nat) : List Tweet :=
  (refresh handles (mockApi count now) [] now).1

/-- `new` counter that same refresh reports. -/
def mockRefreshNew (handles : List Handle) (count now : Nat) : Nat :=
  (refresh handles (mockApi count now) [] now).2.new

/-- The whole relational state: the three tables of
src/database/schema.sql. -/
structure DB where
  handles : List Handle
  tweets : List Tweet
  displayed : List DispRow

/-- Every operation the system runs against the database: handle CRUD,
markDisplayed, refresh. (getNext and getStats are reads.) -/
inductive DBOp
  | addH (h : String) (active : Bool) (nid now : Nat)
  | toggleH (i now : Nat)
  | deleteH (i : Nat)
  | markD (tid : String) (nid now : Nat)
  | refreshOp (api : String → List ExtTweet) (now : Nat)

/-- Modelled from the spec and the schema: the state change of each
operation (backend source absent from the snapshot).  The schema
declares no foreign key from `tweets` to `twitter_handles`
(tweets.author_handle is a plain VARCHAR), so deleting a handle removes
only the handle row; the only ON DELETE CASCADE is
displayed_tweets → tweets.  markDisplayed also appends to the
`displayed_tweets` audit table (UNIQUE tweet_id, insert-if-absent). -/
def applyOp (db : DB) : DBOp → DB
  | .addH h a nid now => { db with handles := (addHandle db.handles h a nid now).2 }
  | .toggleH i now =>
      { db with handles := db.handles.map (fun r =>
          if r.id == i then { r with is_active := !r.is_active, updated_at := now } else r) }
  | .deleteH i => { db with handles := db.handles.filter (fun r => !(r.id == i)) }
  | .markD tid nid now =>
      if hasTweetId db.tweets tid then
        { db with
            tweets := markStore db.tweets tid now,
            displayed :=
              if db.displayed.any (fun d => d.tweet_id == tid) then db.displayed
              else db.displayed ++ [⟨nid, tid, now⟩] }
      else db
  | .refreshOp api now => { db with tweets := (refresh db.handles api db.tweets now).1 }

/-- The schema's referential constraint: every `displayed_tweets` row
references an existing `tweets` row (no orphaned references). -/
def refIntegrity (db : DB) : Bool :=
  db.displayed.all (fun d => hasTweetId db.tweets d.tweet_id)

/-- Demo database state for the C7 witness. -/
def demoDB : DB :=
  { handles := [demoHandle], tweets := demoStore,
    displayed := [⟨1, "t1", 1⟩] }

/-- An HTTP request the display client issues, in issue order
(TweetDisplay.jsx lines 26 and 30). -/
inductive Request
  | markDisplayedReq (tid : String)
  | getNextReq
deriving DecidableEq, Repr

/-- Failure of one HTTP request as the client distinguishes it:
status 404 versus anything else (TweetDisplay.jsx line 35). -/
inductive HttpErr
  | notFound
  | other
deriving DecidableEq, Repr

/-- The TweetDisplay component state touched by fetchNextTweet:
currentTweet, loading, error (TweetDisplay.jsx lines 10-12). -/
structure DisplayState where
  currentTweet : Option Tweet
  loading : Bool
  error : Option String
deriving DecidableEq, Repr

/-- Error message shown when a request fails with 404
(TweetDisplay.jsx line 36). -/
def noMoreMsg : String := "No more tweets available. Please refresh to fetch new tweets."

/-- Error message shown for any other failure (TweetDisplay.jsx line 38). -/
def failMsg : String := "Failed to load tweet. Please try again."

/-- Message the catch block selects for a failure (TweetDisplay.jsx
lines 34-39). -/
def errMsg (e : HttpErr) : String :=
  match e with
  | .notFound => noMoreMsg
  | .other => failMsg

/-- The catch block of fetchNextTweet: sets the error message and
clears loading; currentTweet is left untouched (TweetDisplay.jsx
lines 34-41). -/
def handleFetchErr (st : DisplayState) (e : HttpErr) : DisplayState :=
  { st with error := some (errMsg e), loading := false }

/-- fetchNextTweet from TweetDisplay.jsx lines 18-42, with the outcome
of each await injected as an argument: set loading, clear error; if a
tweet is shown, POST mark-displayed and abort to the catch block on
failure; then GET the next tweet; on success it becomes currentTweet.
Returns the new state and the requests issued, in order. -/
def fetchNextTweet (st : DisplayState)
    (markResp : Except HttpErr Unit) (nextResp : Except HttpErr Tweet) :
    DisplayState × List Request :=
  let st1 : DisplayState := { st with loading := true, error := none }
  match st.currentTweet with
  | some t =>
      match markResp with
      | .error e => (handleFetchErr st1 e, [Request.markDisplayedReq t.tweet_id])
      | .ok _ =>
          match nextResp with
          | .error e =>
              (handleFetchErr st1 e,
                [Request.markDisplayedReq t.tweet_id, Request.getNextReq])
          | .ok u =>
              ({ st1 with currentTweet := some u, loading := false },
                [Request.markDisplayedReq t.tweet_id, Request.getNextReq])
  | none =>
      match nextResp with
      | .error e => (handleFetchErr st1 e, [Request.getNextReq])
      | .ok u => ({ st1 with currentTweet := some u, loading := false }, [Request.getNextReq])

/-- Server side of POST /api/tweets/{id}/mark-displayed: NotFound maps
to a 404 response. -/
def serverMark (s : List Tweet) (tid : String) (now : Nat) :
    List Tweet × Except HttpErr Unit :=
  match markDisplayed s tid now with
  | some s2 => (s2, Except.ok ())
  | none => (s, Except.error HttpErr.notFound)

/-- Server side of GET /api/tweets/next: 404 when none remain. -/
def serverNext (s : List Tweet) : Except HttpErr Tweet :=
  match getNext s with
  | some t => Except.ok t
  | none => Except.error HttpErr.notFound

/-- One client round against the store: the mark request (if a tweet is
shown) is processed by the server before the next-tweet request is
served, exactly in the order fetchNextTweet awaits them. -/
def clientServerRound (s : List Tweet) (st : DisplayState) (now : Nat) :
    List Tweet × DisplayState × List Request :=
  match st.currentTweet with
  | some t =>
      let ms := serverMark s t.tweet_id now
      (ms.1, fetchNextTweet st ms.2 (serverNext ms.1))
  | none => (s, fetchNextTweet st (Except.ok ()) (serverNext s))

/-- Display state for the client-side witnesses: demoT2 currently
shown, idle. -/
def demoDisplay : DisplayState :=
  { currentTweet := some demoT2, loading := false, error := none }

/-- A third, undisplayed demo tweet. -/
def demoT3 : Tweet :=
  { tweet_id := "t3", text := "again", author_handle := "carol",
    author_name := none, created_at_twitter := 2, media_url := none,
    tweet_url := "u3", is_displayed := false, displayed_at := none, fetched_at := 2 }

/-- Demo store with two undisplayed tweets. -/
def demoStore3 : List Tweet := [demoT1, demoT2, demoT3]

/-- Whitespace as JavaScript String.prototype.trim removes (the ASCII
set plus NBSP; the component only ever receives keyboard input). -/
def jsWhitespace (c : Char) : Bool :=
  c == ' ' || c == '\t' || c == '\n' || c == '\r' ||
    c == Char.ofNat 11 || c == Char.ofNat 12 || c == Char.ofNat 160

/-- JavaScript `s.trim()`: strip leading and trailing whitespace. -/
def jsTrim (s : String) : String :=
  String.mk (((s.data.dropWhile jsWhitespace).reverse.dropWhile jsWhitespace).reverse)

/-- Body of POST /api/handles as the Admin Client sends it
(AdminPanel, handleAddHandle). -/
structure AddHandleRequest where
  handle : String
  is_active : Bool
deriving DecidableEq, Repr

/-- handleAddHandle from AdminPanel: `if (!newHandle.trim()) return`,
else POST {handle: newHandle.trim(), is_active: true}. `none` means no
request is submitted at all. -/
def handleAddHandle (newHandle : String) : Option AddHandleRequest :=
  if jsTrim newHandle == "" then none
  else some { handle := jsTrim newHandle, is_active := true }

/-- Observable client state for the request-overlap analysis of
TweetDisplay: whether a tweet is shown, the loading flag, the pause
flag, and how many fetch-next HTTP requests are in flight. -/
structure ClientState where
  hasTweet : Bool
  loading : Bool
  isPaused : Bool
  inflight : Nat
deriving DecidableEq, Repr

/-- Events that can start or finish a fetch-next request: the
auto-rotation timer tick (TweetDisplay.jsx lines 74-82), the n/ArrowRight
keypress (lines 85-113), the on-screen Next button (line 149, rendered
with disabled={loading}), and completion of an in-flight request. -/
inductive ClientEvent
  | timerTick
  | keyNext
  | buttonNext
  | requestDone
deriving DecidableEq, Repr

/-- Event semantics as the source has it: the timer effect is mounted
only while not paused and a tweet is shown, and its callback calls
fetchNextTweet unconditionally; the keydown handler calls it
unconditionally; only the button is disabled while loading. Starting an
invocation issues its first request at once (axios call before any
await resolves). -/
def stepClient (cs : ClientState) : ClientEvent → ClientState
  | .timerTick =>
      if !cs.isPaused && cs.hasTweet then
        { cs with loading := true, inflight := cs.inflight + 1 }
      else cs
  | .keyNext => { cs with loading := true, inflight := cs.inflight + 1 }
  | .buttonNext =>
      if cs.loading then cs
      else { cs with loading := true, inflight := cs.inflight + 1 }
  | .requestDone =>
      { cs with inflight := cs.inflight - 1, loading := cs.inflight - 1 != 0 }

/-- Client state right after mount: loading starts true
(TweetDisplay.jsx line 11) and the initial-load effect (lines 68-71)
has issued the first fetch. -/
def initClient : ClientState :=
  { hasTweet := false, loading := true, isPaused := false, inflight := 1 }

/-- State after a sequence of events from mount. -/
def runClient (es : List ClientEvent) : ClientState :=
  es.foldl stepClient initClient

/-- C6, the claim as stated: no event sequence ever has two fetch-next
requests in flight at once. -/
def neverOverlaps : Prop :=
  ∀ es : List ClientEvent, (runClient es).inflight ≤ 1

theorem markTweet_tweet_id (t : Tweet) (now : Nat) :
    (markTweet t now).tweet_id = t.tweet_id := by
  unfold markTweet; split <;> rfl

theorem markTweet_is_displayed_of (t : Tweet) (now : Nat)
    (h : t.is_displayed = true) : (markTweet t now).is_displayed = true := by
  unfold markTweet; split <;> simp [h]

theorem markTweet_is_displayed_self (t : Tweet) (now : Nat) :
    (markTweet t now).is_displayed = true := by
  unfold markTweet; split <;> simp_all

theorem getNext_mem_undisplayed (s : List Tweet) (t : Tweet)
    (h : getNext s = some t) : t ∈ s ∧ t.is_displayed = false := by
  unfold getNext at h
  refine ⟨List.mem_of_find?_eq_some h, ?_⟩
  have hp := List.find?_some h
  simpa using hp

theorem markedAll_markStore_self (s : List Tweet) (tid : String) (now : Nat) :
    markedAll (markStore s tid now) tid = true := by
  unfold markedAll markStore
  rw [List.all_eq_true]
  intro u hu
  rw [List.mem_map] at hu
  obtain ⟨t, _, rfl⟩ := hu
  by_cases h : t.tweet_id == tid
  · simp only [h, if_pos]
    simp [markTweet_is_displayed_self]
  · simp only [h, if_neg]
    simp_all

theorem markedAll_markStore_mono (s : List Tweet) (tid tid2 : String) (now : Nat)
    (h : markedAll s tid = true) : markedAll (markStore s tid2 now) tid = true := by
  unfold markedAll at *
  rw [List.all_eq_true] at h ⊢
  intro u hu
  unfold markStore at hu
  rw [List.mem_map] at hu
  obtain ⟨t, ht, rfl⟩ := hu
  have hpt := h t ht
  by_cases h2 : t.tweet_id == tid2
  · simp only [h2, if_pos]
    rw [Bool.or_eq_true] at hpt ⊢
    rcases hpt with hid | hd
    · left; rw [markTweet_tweet_id]; exact hid
    · right; exact markTweet_is_displayed_of t now hd
  · simp only [h2, if_neg]
    exact hpt

theorem markedAll_runOp (s : List Tweet) (tid : String) (op : RotOp)
    (h : markedAll s tid = true) : markedAll (runOp s op) tid = true := by
  cases op with
  | next => exact h
  | mark tid2 now =>
      unfold runOp markDisplayed
      by_cases hc : hasTweetId s tid2
      · simp only [hc, if_pos, Option.getD_some]
        exact markedAll_markStore_mono s tid tid2 now h
      · simp only [hc, if_neg, Option.getD_none]
        exact h

theorem markedAll_runOps (s : List Tweet) (tid : String) (ops : List RotOp)
    (h : markedAll s tid = true) : markedAll (runOps s ops) tid = true := by
  induction ops generalizing s with
  | nil => exact h
  | cons op rest ih =>
      exact ih (runOp s op) (markedAll_runOp s tid op h)

theorem getNext_ne_of_markedAll (s : List Tweet) (tid : String) (t : Tweet)
    (hm : markedAll s tid = true) (hg : getNext s = some t) :
    t.tweet_id ≠ tid := by
  obtain ⟨hmem, hd⟩ := getNext_mem_undisplayed s t hg
  unfold markedAll at hm
  rw [List.all_eq_true] at hm
  have hpt := hm t hmem
  rw [Bool.or_eq_true] at hpt
  rcases hpt with hid | hdd
  · intro hc
    rw [hc] at hid
    simp at hid
  · rw [hd] at hdd
    exact absurd hdd (by simp)

/-- Marking an id leaves every row with that id displayed, whether or
not it was already. -/
theorem markedAll_after_mark (s : List Tweet) (tid : String) (now : Nat) :
    markedAll (runOp s (RotOp.mark tid now)) tid = true := by
  unfold runOp markDisplayed
  by_cases hc : hasTweetId s tid
  · simp only [hc, if_pos, Option.getD_some]
    exact markedAll_markStore_self s tid now
  · simp only [hc, if_neg, Option.getD_none]
    unfold hasTweetId at hc
    rw [Bool.not_eq_true, List.any_eq_false] at hc
    unfold markedAll
    rw [List.all_eq_true]
    intro t ht
    have := hc t ht
    simp_all

/-- C1 theorem: once an external id is marked displayed it stays marked
through any further sequence of getNext/markDisplayed calls, and getNext
never returns a tweet whose displayed flag is true, in particular never
one carrying a marked id. -/
theorem rotation_never_redisplays
    (s : List Tweet) (tid : String) (now : Nat) (ops : List RotOp) (t : Tweet)
    (hm : markedAll s tid = true)
    (hg : getNext (runOps s ops) = some t) :
    t.is_displayed = false ∧ t.tweet_id ≠ tid ∧
      markedAll (runOps s ops) tid = true ∧
      markedAll (runOp s (RotOp.mark tid now)) tid = true := by
  have hall := markedAll_runOps s tid ops hm
  refine ⟨(getNext_mem_undisplayed _ t hg).2, ?_, hall, markedAll_after_mark s tid now⟩
  exact getNext_ne_of_markedAll _ tid t hall hg

/-- C1 witness: in the concrete demo store, the already marked id "t1"
is never the one getNext returns. -/
theorem rotation_never_redisplays_witness :
    markedAll demoStore "t1" = true ∧ getNext demoStore = some demoT2 ∧
      (demoT2.is_displayed = false ∧ demoT2.tweet_id ≠ "t1" ∧
        markedAll (runOps demoStore []) "t1" = true ∧
        markedAll (runOp demoStore (RotOp.mark "t1" 5)) "t1" = true) :=
  ⟨by decide, by decide,
    rotation_never_redisplays demoStore "t1" 5 [] demoT2 (by decide) (by decide)⟩

theorem hasTweetId_append_left (st ext : List Tweet) (tid : String)
    (h : hasTweetId st tid = true) : hasTweetId (st ++ ext) tid = true := by
  unfold hasTweetId at *
  rw [List.any_append, h]
  rfl

theorem insertTweets_pres (ts : List ExtTweet) (st : List Tweet) (h : String)
    (now : Nat) (tid : String) (hin : hasTweetId st tid = true) :
    hasTweetId (insertTweets st h ts now).1 tid = true := by
  induction ts generalizing st with
  | nil => exact hin
  | cons e rest ih =>
      unfold insertTweets
      by_cases hc : hasTweetId st e.tweet_id
      · simp only [hc, if_pos]
        exact ih st hin
      · simp only [hc, if_neg]
        exact ih (st ++ [newTweet h e now]) (hasTweetId_append_left st _ tid hin)

theorem insertTweets_covers (ts : List ExtTweet) (st : List Tweet) (h : String)
    (now : Nat) (e : ExtTweet) (hmem : e ∈ ts) :
    hasTweetId (insertTweets st h ts now).1 e.tweet_id = true := by
  induction ts generalizing st with
  | nil => cases hmem
  | cons e0 rest ih =>
      unfold insertTweets
      rcases List.mem_cons.mp hmem with rfl | hrest
      · by_cases hc : hasTweetId st e.tweet_id
        · simp only [hc, if_pos]
          exact insertTweets_pres rest st h now e.tweet_id hc
        · simp only [hc, if_neg]
          refine insertTweets_pres rest _ h now e.tweet_id ?_
          unfold hasTweetId
          rw [List.any_append]
          simp [newTweet]
      · by_cases hc : hasTweetId st e0.tweet_id
        · simp only [hc, if_pos]
          exact ih st hrest
        · simp only [hc, if_neg]
          exact ih (st ++ [newTweet h e0 now]) hrest

theorem hasTweetId_false_notmem (st : List Tweet) (tid : String)
    (h : hasTweetId st tid = false) : tid ∉ st.map Tweet.tweet_id := by
  unfold hasTweetId at h
  rw [List.any_eq_false] at h
  intro hmem
  rw [List.mem_map] at hmem
  obtain ⟨t, ht, rfl⟩ := hmem
  have := h t ht
  simp at this

theorem insertTweets_unique (ts : List ExtTweet) (st : List Tweet) (h : String)
    (now : Nat) (hu : uniqueIds st) : uniqueIds (insertTweets st h ts now).1 := by
  induction ts generalizing st with
  | nil => exact hu
  | cons e rest ih =>
      unfold insertTweets
      by_cases hc : hasTweetId st e.tweet_id
      · simp only [hc, if_pos]
        exact ih st hu
      · simp only [hc, if_neg]
        refine ih (st ++ [newTweet h e now]) ?_
        unfold uniqueIds at *
        rw [List.map_append, List.nodup_append]
        refine ⟨hu, List.nodup_singleton _, ?_⟩
        simp only [List.map_cons, List.map_nil, List.disjoint_singleton]
        have := hasTweetId_false_notmem st e.tweet_id (by simpa using hc)
        simpa [newTweet] using this

theorem insertTweets_all_present (ts : List ExtTweet) (st : List Tweet)
    (h : String) (now : Nat)
    (hall : ∀ e ∈ ts, hasTweetId st e.tweet_id = true) :
    insertTweets st h ts now = (st, 0, ts.length) := by
  induction ts generalizing st with
  | nil => rfl
  | cons e rest ih =>
      unfold insertTweets
      have hc : hasTweetId st e.tweet_id = true := hall e (List.mem_cons_self e rest)
      simp only [hc, if_pos]
      rw [ih st (fun e2 h2 => hall e2 (List.mem_cons_of_mem e h2))]
      simp

theorem refreshHandles_pres (hs : List Handle) (api : String → List ExtTweet)
    (st : List Tweet) (now : Nat) (tid : String)
    (hin : hasTweetId st tid = true) :
    hasTweetId (refreshHandles hs api st now).1 tid = true := by
  induction hs generalizing st with
  | nil => exact hin
  | cons h rest ih =>
      unfold refreshHandles
      exact ih _ (insertTweets_pres _ st h.handle now tid hin)

theorem refreshHandles_covers (hs : List Handle) (api : String → List ExtTweet)
    (st : List Tweet) (now : Nat) (h : Handle) (e : ExtTweet)
    (hh : h ∈ hs) (he : e ∈ api h.handle) :
    hasTweetId (refreshHandles hs api st now).1 e.tweet_id = true := by
  induction hs generalizing st with
  | nil => cases hh
  | cons h0 rest ih =>
      unfold refreshHandles
      rcases List.mem_cons.mp hh with rfl | hrest
      · exact refreshHandles_pres rest api _ now e.tweet_id
          (insertTweets_covers _ st h.handle now e he)
      · exact ih _ hrest

theorem refreshHandles_unique (hs : List Handle) (api : String → List ExtTweet)
    (st : List Tweet) (now : Nat) (hu : uniqueIds st) :
    uniqueIds (refreshHandles hs api st now).1 := by
  induction hs generalizing st with
  | nil => exact hu
  | cons h rest ih =>
      unfold refreshHandles
      exact ih _ (insertTweets_unique _ st h.handle now hu)

theorem refreshHandles_all_present (hs : List Handle) (api : String → List ExtTweet)
    (st : List Tweet) (now : Nat)
    (hall : ∀ h ∈ hs, ∀ e ∈ api h.handle, hasTweetId st e.tweet_id = true) :
    (refreshHandles hs api st now).1 = st ∧
      (refreshHandles hs api st now).2.new = 0 := by
  induction hs generalizing st with
  | nil => exact ⟨rfl, rfl⟩
  | cons h rest ih =>
      unfold refreshHandles
      rw [insertTweets_all_present (api h.handle) st h.handle now
        (fun e he => hall h (List.mem_cons_self h rest) e he)]
      have ihr := ih st (fun h2 hh2 e he => hall h2 (List.mem_cons_of_mem h hh2) e he)
      exact ⟨ihr.1, by simp [ihr.2]⟩

theorem refresh_pres (handles : List Handle) (api : String → List ExtTweet)
    (st : List Tweet) (now : Nat) (tid : String)
    (hin : hasTweetId st tid = true) :
    hasTweetId (refresh handles api st now).1 tid = true :=
  refreshHandles_pres _ api st now tid hin

theorem refresh_covers (handles : List Handle) (api : String → List ExtTweet)
    (st : List Tweet) (now : Nat) (tid : String)
    (hid : apiHasId handles api tid = true) :
    hasTweetId (refresh handles api st now).1 tid = true := by
  unfold apiHasId at hid
  rw [List.any_eq_true] at hid
  obtain ⟨h, hh, hp⟩ := hid
  rw [Bool.and_eq_true] at hp
  obtain ⟨hact, he⟩ := hp
  rw [List.any_eq_true] at he
  obtain ⟨e, he, heq⟩ := he
  have heq2 : e.tweet_id = tid := by simpa using heq
  rw [← heq2]
  exact refreshHandles_covers _ api st now h e (List.mem_filter.mpr ⟨hh, hact⟩) he

theorem countId_eq_zero (s : List Tweet) (tid : String)
    (h : hasTweetId s tid = false) : countId s tid = 0 := by
  unfold countId
  rw [List.length_eq_zero, List.filter_eq_nil_iff]
  unfold hasTweetId at h
  rw [List.any_eq_false] at h
  intro t ht
  simpa using h t ht

theorem countId_eq_one (s : List Tweet) (tid : String)
    (hu : uniqueIds s) (hin : hasTweetId s tid = true) : countId s tid = 1 := by
  induction s with
  | nil => cases hin
  | cons t rest ih =>
      unfold uniqueIds at hu
      rw [List.map_cons, List.nodup_cons] at hu
      unfold countId
      rw [List.filter_cons]
      by_cases hc : t.tweet_id == tid
      · simp only [hc, if_pos]
        have htid : t.tweet_id = tid := by simpa using hc
        have hrest : hasTweetId rest tid = false := by
          rw [← htid]
          by_contra hx
          rw [Bool.not_eq_false] at hx
          unfold hasTweetId at hx
          rw [List.any_eq_true] at hx
          obtain ⟨u, hu2, hequ⟩ := hx
          have hut : u.tweet_id = t.tweet_id := by simpa using hequ
          exact hu.1 (List.mem_map.mpr ⟨u, hu2, hut⟩)
        have := countId_eq_zero rest tid hrest
        unfold countId at this
        simp [this]
      · simp only [hc, if_neg]
        have hin2 : hasTweetId rest tid = true := by
          unfold hasTweetId at hin ⊢
          rw [List.any_cons] at hin
          rcases Bool.or_eq_true _ _ |>.mp hin with h1 | h2
          · exact absurd h1 hc
          · exact h2
        exact ih hu.2 hin2

/-- C3 theorem: running refresh twice with identical responses leaves
the store of the first run unchanged, reports new = 0 on the second run,
keeps external ids unique, and stores exactly one row for every id that
occurs in an active handle's response or was already stored. -/
theorem refresh_idempotent_ingestion
    (handles : List Handle) (api : String → List ExtTweet)
    (store : List Tweet) (now now2 : Nat) (tid : String)
    (hu : uniqueIds store) :
    (refresh handles api (refresh handles api store now).1 now2).2.new = 0 ∧
    (refresh handles api (refresh handles api store now).1 now2).1 =
      (refresh handles api store now).1 ∧
    uniqueIds (refresh handles api store now).1 ∧
    (apiHasId handles api tid = true →
      countId (refresh handles api store now).1 tid = 1) ∧
    (hasTweetId store tid = true →
      countId (refresh handles api store now).1 tid = 1) := by
  have hall : ∀ h ∈ handles.filter (fun h => h.is_active),
      ∀ e ∈ api h.handle,
        hasTweetId (refresh handles api store now).1 e.tweet_id = true := by
    intro h hh e he
    exact refreshHandles_covers _ api store now h e hh he
  have h2 := refreshHandles_all_present
    (handles.filter (fun h => h.is_active)) api
    (refresh handles api store now).1 now2 hall
  have huniq : uniqueIds (refresh handles api store now).1 :=
    refreshHandles_unique _ api store now hu
  refine ⟨h2.2, h2.1, huniq, ?_, ?_⟩
  · intro hid
    exact countId_eq_one _ tid huniq (refresh_covers handles api store now tid hid)
  · intro hin
    exact countId_eq_one _ tid huniq (refresh_pres handles api store now tid hin)

/-- C3 witness: concrete double refresh from the empty store over one
active handle and a one-tweet response. -/
theorem refresh_idempotent_ingestion_witness :
    uniqueIds ([] : List Tweet) ∧
    ((refresh [demoHandle] demoApi (refresh [demoHandle] demoApi [] 0).1 1).2.new = 0 ∧
     (refresh [demoHandle] demoApi (refresh [demoHandle] demoApi [] 0).1 1).1 =
       (refresh [demoHandle] demoApi [] 0).1 ∧
     uniqueIds (refresh [demoHandle] demoApi [] 0).1 ∧
     (apiHasId [demoHandle] demoApi "x1" = true →
       countId (refresh [demoHandle] demoApi [] 0).1 "x1" = 1) ∧
     (hasTweetId [] "x1" = true →
       countId (refresh [demoHandle] demoApi [] 0).1 "x1" = 1)) :=
  ⟨by decide, refresh_idempotent_ingestion [demoHandle] demoApi [] 0 1 "x1" (by decide)⟩

/-- C4 theorem: for every store state (hence after every write, since
getStats recomputes from the state alone), total = displayed + remaining. -/
theorem stats_total_eq_displayed_plus_remaining
    (tweets : List Tweet) (handles : List Handle) :
    (getStats tweets handles).total_tweets =
      (getStats tweets handles).displayed_tweets +
        (getStats tweets handles).remaining_tweets := by
  unfold getStats
  simpa using List.length_eq_length_filter_add (l := tweets) (fun t => t.is_displayed)

/-- C5 theorem: adding a handle string that already occurs (exact,
case-sensitive match) yields Conflict and returns the registry exactly
as it was: no row added, no row mutated. -/
theorem add_duplicate_handle_conflict
    (reg : List Handle) (h : String) (active : Bool) (nid now : Nat)
    (hdup : reg.any (fun r => r.handle == h) = true) :
    (addHandle reg h active nid now).1 = AddResult.conflict ∧
      (addHandle reg h active nid now).2 = reg := by
  unfold addHandle
  simp [hdup]

/-- C5 witness: re-adding the demo registry's "alice" conflicts and
leaves the registry unchanged. -/
theorem add_duplicate_handle_conflict_witness :
    ([demoHandle].any (fun r => r.handle == "alice") = true) ∧
    ((addHandle [demoHandle] "alice" false 2 9).1 = AddResult.conflict ∧
      (addHandle [demoHandle] "alice" false 2 9).2 = [demoHandle]) :=
  ⟨by decide, add_duplicate_handle_conflict [demoHandle] "alice" false 2 9 (by decide)⟩

theorem hasTweetId_of_mem (s : List Tweet) (t : Tweet) (h : t ∈ s) :
    hasTweetId s t.tweet_id = true := by
  unfold hasTweetId
  rw [List.any_eq_true]
  exact ⟨t, h, by simp⟩

theorem hasTweetId_false_of_notmem (s : List Tweet) (tid : String)
    (h : tid ∉ s.map Tweet.tweet_id) : hasTweetId s tid = false := by
  unfold hasTweetId
  rw [List.any_eq_false]
  intro t ht
  simp only [beq_iff_eq]
  intro hc
  exact h (List.mem_map.mpr ⟨t, ht, hc⟩)

theorem markStore_map_id (s : List Tweet) (tid : String) (now : Nat) :
    (markStore s tid now).map Tweet.tweet_id = s.map Tweet.tweet_id := by
  unfold markStore
  rw [List.map_map]
  apply List.map_congr_left
  intro t ht
  by_cases h : t.tweet_id == tid
  · simp only [Function.comp_apply, h, if_pos]
    exact markTweet_tweet_id t now
  · simp only [Function.comp_apply]
    rw [if_neg h]

theorem markStore_no_match (s : List Tweet) (tid : String) (now : Nat)
    (h : hasTweetId s tid = false) : markStore s tid now = s := by
  unfold markStore
  unfold hasTweetId at h
  rw [List.any_eq_false] at h
  have : ∀ t ∈ s, (if t.tweet_id == tid then markTweet t now else t) = t := by
    intro t ht
    have := h t ht
    simp_all
  rw [List.map_congr_left this]
  simp

theorem uniqueIds_markStore (s : List Tweet) (tid : String) (now : Nat)
    (hu : uniqueIds s) : uniqueIds (markStore s tid now) := by
  unfold uniqueIds at *
  rw [markStore_map_id]
  exact hu

theorem countRemaining_markStore (s : List Tweet) (t : Tweet) (now : Nat)
    (hu : uniqueIds s) (hmem : t ∈ s) (hund : t.is_displayed = false) :
    countRemaining (markStore s t.tweet_id now) + 1 = countRemaining s := by
  induction s with
  | nil => cases hmem
  | cons u rest ih =>
      unfold uniqueIds at hu
      rw [List.map_cons, List.nodup_cons] at hu
      rcases List.mem_cons.mp hmem with rfl | hr
      · have hrest : markStore rest t.tweet_id now = rest :=
          markStore_no_match rest t.tweet_id now
            (hasTweetId_false_of_notmem rest t.tweet_id hu.1)
        unfold markStore
        rw [List.map_cons]
        simp only [beq_self_eq_true, if_pos]
        have hms : rest.map (fun u => if u.tweet_id == t.tweet_id then markTweet u now else u)
            = markStore rest t.tweet_id now := rfl
        rw [hms, hrest]
        unfold countRemaining
        rw [List.filter_cons, List.filter_cons]
        simp [markTweet_is_displayed_self, hund]
      · have hne : (u.tweet_id == t.tweet_id) = false := by
          simp only [beq_eq_false_iff_ne, ne_eq]
          intro hc
          exact hu.1 (hc ▸ List.mem_map.mpr ⟨t, hr, rfl⟩)
        unfold markStore
        rw [List.map_cons]
        simp only [hne, Bool.false_eq_true, if_neg, if_false]
        have hms : rest.map (fun v => if v.tweet_id == t.tweet_id then markTweet v now else v)
            = markStore rest t.tweet_id now := rfl
        rw [hms]
        have ihh := ih hu.2 hr
        unfold countRemaining at ihh ⊢
        rw [List.filter_cons, List.filter_cons]
        by_cases hd : u.is_displayed
        · simp only [hd]
          simpa using ihh
        · simp only [eq_false_of_ne_true hd]
          simp only [Bool.not_false, if_pos]
          simp only [List.length_cons]
          omega

theorem getNext_eq_none_iff (s : List Tweet) :
    getNext s = none ↔ countRemaining s = 0 := by
  unfold getNext countRemaining
  rw [List.find?_eq_none, List.length_eq_zero, List.filter_eq_nil_iff]

theorem getNext_some_of_remaining (s : List Tweet)
    (h : countRemaining s ≠ 0) : ∃ t, getNext s = some t := by
  cases hg : getNext s with
  | none => exact absurd ((getNext_eq_none_iff s).mp hg) h
  | some t => exact ⟨t, rfl⟩

theorem roundStore_eq_markStore (s : List Tweet) (t : Tweet) (now : Nat)
    (hg : getNext s = some t) :
    roundStore s now = markStore s t.tweet_id now := by
  unfold roundStore
  rw [hg]
  show (markDisplayed s t.tweet_id now).getD s = markStore s t.tweet_id now
  unfold markDisplayed
  rw [hasTweetId_of_mem s t (getNext_mem_undisplayed s t hg).1]
  rfl

theorem markedAll_roundStore (s : List Tweet) (tid : String) (now : Nat)
    (h : markedAll s tid = true) : markedAll (roundStore s now) tid = true := by
  unfold roundStore
  cases hg : getNext s with
  | none => exact h
  | some t => exact markedAll_runOp s tid (RotOp.mark t.tweet_id now) h

theorem traceRounds_ne_of_markedAll (k : Nat) :
    ∀ (s : List Tweet) (tid : String), markedAll s tid = true →
      ∀ u ∈ traceRounds k s, u.tweet_id ≠ tid := by
  induction k with
  | zero => intro s tid _ u hu; cases hu
  | succ k ih =>
      intro s tid hm u hu
      unfold traceRounds at hu
      cases hg : getNext s with
      | none => rw [hg] at hu; cases hu
      | some t =>
          rw [hg] at hu
          rcases List.mem_cons.mp hu with rfl | htail
          · exact getNext_ne_of_markedAll s tid u hm hg
          · exact ih (roundStore s 0) tid (markedAll_roundStore s tid 0 hm) u htail

theorem traceRounds_ids_sub (k : Nat) :
    ∀ (s : List Tweet), ∀ u ∈ traceRounds k s,
      u.tweet_id ∈ s.map Tweet.tweet_id := by
  induction k with
  | zero => intro s u hu; cases hu
  | succ k ih =>
      intro s u hu
      unfold traceRounds at hu
      cases hg : getNext s with
      | none => rw [hg] at hu; cases hu
      | some t =>
          rw [hg] at hu
          rcases List.mem_cons.mp hu with rfl | htail
          · exact List.mem_map.mpr ⟨u, (getNext_mem_undisplayed s u hg).1, rfl⟩
          · have := ih (roundStore s 0) u htail
            rw [roundStore_eq_markStore s t 0 hg, markStore_map_id] at this
            exact this

theorem rounds_exhaust (n : Nat) :
    ∀ s : List Tweet, uniqueIds s → countRemaining s = n →
      (traceRounds n s).length = n ∧
      (∀ u ∈ traceRounds n s, u.is_displayed = false) ∧
      ((traceRounds n s).map Tweet.tweet_id).Nodup ∧
      getNext (runRounds n s) = none := by
  induction n with
  | zero =>
      intro s _ hc
      refine ⟨rfl, ?_, ?_, (getNext_eq_none_iff s).mpr hc⟩
      · intro u hu
        simp [traceRounds] at hu
      · simp [traceRounds]
  | succ n ih =>
      intro s hu hc
      obtain ⟨t, hg⟩ := getNext_some_of_remaining s (by omega)
      have hmem := (getNext_mem_undisplayed s t hg).1
      have hund := (getNext_mem_undisplayed s t hg).2
      have hms := roundStore_eq_markStore s t 0 hg
      have hcnt : countRemaining (roundStore s 0) = n := by
        rw [hms]
        have := countRemaining_markStore s t 0 hu hmem hund
        omega
      have huniq : uniqueIds (roundStore s 0) := by
        rw [hms]; exact uniqueIds_markStore s t.tweet_id 0 hu
      obtain ⟨ihlen, ihund, ihnodup, ihnone⟩ := ih (roundStore s 0) huniq hcnt
      have hmarked : markedAll (roundStore s 0) t.tweet_id = true := by
        rw [hms]; exact markedAll_markStore_self s t.tweet_id 0
      refine ⟨?_, ?_, ?_, ?_⟩
      · unfold traceRounds
        rw [hg, List.length_cons, ihlen]
      · unfold traceRounds
        rw [hg]
        intro u hu2
        rcases List.mem_cons.mp hu2 with rfl | htail
        · exact hund
        · exact ihund u htail
      · unfold traceRounds
        rw [hg, List.map_cons, List.nodup_cons]
        refine ⟨?_, ihnodup⟩
        intro hcmem
        rw [List.mem_map] at hcmem
        obtain ⟨u, hu2, hequ⟩ := hcmem
        exact traceRounds_ne_of_markedAll n (roundStore s 0) t.tweet_id hmarked u hu2 hequ
      · unfold runRounds
        exact ihnone

theorem insertTweets_undisp (ts : List ExtTweet) (st : List Tweet)
    (h : String) (now : Nat)
    (hall : ∀ t ∈ st, t.is_displayed = false) :
    ∀ t ∈ (insertTweets st h ts now).1, t.is_displayed = false := by
  induction ts generalizing st with
  | nil => exact hall
  | cons e rest ih =>
      unfold insertTweets
      by_cases hc : hasTweetId st e.tweet_id
      · simp only [hc, if_pos]
        exact ih st hall
      · simp only [hc, if_neg]
        refine ih (st ++ [newTweet h e now]) ?_
        intro t ht
        rcases List.mem_append.mp ht with hl | hr
        · exact hall t hl
        · rcases List.mem_singleton.mp hr with rfl
          rfl

theorem insertTweets_length (ts : List ExtTweet) (st : List Tweet)
    (h : String) (now : Nat) :
    (insertTweets st h ts now).1.length = st.length + (insertTweets st h ts now).2.1 := by
  induction ts generalizing st with
  | nil => simp [insertTweets]
  | cons e rest ih =>
      unfold insertTweets
      by_cases hc : hasTweetId st e.tweet_id
      · simp only [hc, if_pos]
        exact ih st
      · rw [if_neg hc]
        dsimp only
        have := ih (st ++ [newTweet h e now])
        rw [List.length_append] at this
        simp only [List.length_singleton] at this
        omega

theorem refreshHandles_undisp (hs : List Handle) (api : String → List ExtTweet)
    (st : List Tweet) (now : Nat)
    (hall : ∀ t ∈ st, t.is_displayed = false) :
    ∀ t ∈ (refreshHandles hs api st now).1, t.is_displayed = false := by
  induction hs generalizing st with
  | nil => exact hall
  | cons h rest ih =>
      unfold refreshHandles
      exact ih _ (insertTweets_undisp _ st h.handle now hall)

theorem refreshHandles_length (hs : List Handle) (api : String → List ExtTweet)
    (st : List Tweet) (now : Nat) :
    (refreshHandles hs api st now).1.length
      = st.length + (refreshHandles hs api st now).2.new := by
  induction hs generalizing st with
  | nil => simp [refreshHandles]
  | cons h rest ih =>
      unfold refreshHandles
      have h1 := insertTweets_length (api h.handle) st h.handle now
      have h2 := ih (insertTweets st h.handle (api h.handle) now).1
      simp only []
      omega

theorem countRemaining_eq_length (s : List Tweet)
    (hall : ∀ t ∈ s, t.is_displayed = false) : countRemaining s = s.length := by
  unfold countRemaining
  congr 1
  rw [List.filter_eq_self]
  intro t ht
  simp [hall t ht]

/-- C2 theorem: from the empty store, one mock-fallback refresh inserts
N = `new` synthetic tweets, all undisplayed; over the next N
getNext/markDisplayed rounds getNext hands out N tweets of the store,
pairwise distinct (never one already marked), and the (N+1)-st getNext
reports NotFound; non-vacuously, N is positive as soon as some handle is
active and the mock batch is nonempty. -/
theorem mock_refresh_rotation_scenario (handles : List Handle) (count now : Nat) :
    mockRefreshNew handles count now = (mockRefreshStore handles count now).length ∧
    (∀ t ∈ mockRefreshStore handles count now, t.is_displayed = false) ∧
    (traceRounds (mockRefreshNew handles count now)
        (mockRefreshStore handles count now)).length
      = mockRefreshNew handles count now ∧
    ((traceRounds (mockRefreshNew handles count now)
        (mockRefreshStore handles count now)).map Tweet.tweet_id).Nodup ∧
    (∀ u ∈ traceRounds (mockRefreshNew handles count now)
        (mockRefreshStore handles count now),
      u.tweet_id ∈ (mockRefreshStore handles count now).map Tweet.tweet_id) ∧
    getNext (runRounds (mockRefreshNew handles count now)
        (mockRefreshStore handles count now)) = none ∧
    (0 < count → (∃ h ∈ handles, h.is_active = true) →
      0 < mockRefreshNew handles count now) := by
  have hundisp : ∀ t ∈ mockRefreshStore handles count now, t.is_displayed = false :=
    refreshHandles_undisp _ _ [] now (fun t ht => by cases ht)
  have hlen : mockRefreshNew handles count now
      = (mockRefreshStore handles count now).length := by
    have := refreshHandles_length (handles.filter (fun h => h.is_active))
      (mockApi count now) [] now
    unfold mockRefreshNew mockRefreshStore refresh
    simpa using this.symm
  have huniq : uniqueIds (mockRefreshStore handles count now) :=
    refreshHandles_unique _ _ [] now (by simp [uniqueIds])
  have hcnt : countRemaining (mockRefreshStore handles count now)
      = mockRefreshNew handles count now := by
    rw [countRemaining_eq_length _ hundisp, hlen]
  obtain ⟨hl, hu2, hnd, hnone⟩ :=
    rounds_exhaust (mockRefreshNew handles count now)
      (mockRefreshStore handles count now) huniq hcnt
  refine ⟨hlen, hundisp, hl, hnd,
    fun u hu => traceRounds_ids_sub _ _ u hu, hnone, ?_⟩
  intro hcount ⟨h, hh, hact⟩
  have hid : apiHasId handles (mockApi count now) (mockExtTweet h.handle now 0).tweet_id
      = true := by
    unfold apiHasId
    rw [List.any_eq_true]
    refine ⟨h, hh, ?_⟩
    rw [Bool.and_eq_true]
    refine ⟨hact, ?_⟩
    rw [List.any_eq_true]
    refine ⟨mockExtTweet h.handle now 0, ?_, by simp⟩
    unfold mockApi
    exact List.mem_map.mpr ⟨0, List.mem_range.mpr hcount, rfl⟩
  have hpres := refresh_covers handles (mockApi count now) [] now _ hid
  unfold mockRefreshStore at hlen hundisp
  rw [hlen]
  unfold hasTweetId at hpres
  rw [List.any_eq_true] at hpres
  obtain ⟨t, ht, _⟩ := hpres
  exact List.length_pos.mpr (fun hnil => by rw [hnil] at ht; cases ht)

/-- C2 witness: the scenario hypotheses are satisfiable concretely (two
mock tweets for one active handle). -/
theorem mock_refresh_rotation_scenario_witness :
    (0 < 2 ∧ (∃ h ∈ [demoHandle], h.is_active = true)) ∧
    (mockRefreshNew [demoHandle] 2 0 = (mockRefreshStore [demoHandle] 2 0).length ∧
      (∀ t ∈ mockRefreshStore [demoHandle] 2 0, t.is_displayed = false) ∧
      (traceRounds (mockRefreshNew [demoHandle] 2 0)
          (mockRefreshStore [demoHandle] 2 0)).length = mockRefreshNew [demoHandle] 2 0 ∧
      ((traceRounds (mockRefreshNew [demoHandle] 2 0)
          (mockRefreshStore [demoHandle] 2 0)).map Tweet.tweet_id).Nodup ∧
      (∀ u ∈ traceRounds (mockRefreshNew [demoHandle] 2 0)
          (mockRefreshStore [demoHandle] 2 0),
        u.tweet_id ∈ (mockRefreshStore [demoHandle] 2 0).map Tweet.tweet_id) ∧
      getNext (runRounds (mockRefreshNew [demoHandle] 2 0)
          (mockRefreshStore [demoHandle] 2 0)) = none ∧
      (0 < 2 → (∃ h ∈ [demoHandle], h.is_active = true) →
        0 < mockRefreshNew [demoHandle] 2 0)) :=
  ⟨⟨by decide, ⟨demoHandle, by simp, by decide⟩⟩,
    mock_refresh_rotation_scenario [demoHandle] 2 0⟩

theorem hasTweetId_eq_mem (s : List Tweet) (tid : String) :
    hasTweetId s tid = true ↔ tid ∈ s.map Tweet.tweet_id := by
  constructor
  · intro h
    unfold hasTweetId at h
    rw [List.any_eq_true] at h
    obtain ⟨t, ht, heq⟩ := h
    exact List.mem_map.mpr ⟨t, ht, by simpa using heq⟩
  · intro h
    rw [List.mem_map] at h
    obtain ⟨t, ht, rfl⟩ := h
    exact hasTweetId_of_mem s t ht

theorem hasTweetId_markStore (s : List Tweet) (tid tid2 : String) (now : Nat)
    (h : hasTweetId s tid = true) : hasTweetId (markStore s tid2 now) tid = true := by
  rw [hasTweetId_eq_mem, markStore_map_id]
  exact (hasTweetId_eq_mem s tid).mp h

theorem insertTweets_mem (ts : List ExtTweet) (st : List Tweet) (h : String)
    (now : Nat) (t : Tweet) (ht : t ∈ st) : t ∈ (insertTweets st h ts now).1 := by
  induction ts generalizing st with
  | nil => exact ht
  | cons e rest ih =>
      unfold insertTweets
      by_cases hc : hasTweetId st e.tweet_id
      · simp only [hc, if_pos]
        exact ih st ht
      · rw [if_neg hc]
        exact ih (st ++ [newTweet h e now]) (List.mem_append_left _ ht)

theorem refreshHandles_mem (hs : List Handle) (api : String → List ExtTweet)
    (st : List Tweet) (now : Nat) (t : Tweet) (ht : t ∈ st) :
    t ∈ (refreshHandles hs api st now).1 := by
  induction hs generalizing st with
  | nil => exact ht
  | cons h rest ih =>
      unfold refreshHandles
      exact ih _ (insertTweets_mem _ st h.handle now t ht)

theorem markStore_mem_image (s : List Tweet) (tid : String) (now : Nat)
    (t : Tweet) (ht : t ∈ s) :
    ∃ u ∈ markStore s tid now, u.tweet_id = t.tweet_id := by
  refine ⟨if t.tweet_id == tid then markTweet t now else t, ?_, ?_⟩
  · unfold markStore
    exact List.mem_map.mpr ⟨t, ht, rfl⟩
  · by_cases h : t.tweet_id == tid
    · rw [if_pos h]; exact markTweet_tweet_id t now
    · rw [if_neg h]

theorem markStore_length (s : List Tweet) (tid : String) (now : Nat) :
    (markStore s tid now).length = s.length := List.length_map s _

/-- C7 theorem: no operation removes a stored tweet row (every id
survives and the table never shrinks); deleting a handle leaves the
tweets table exactly unchanged (the schema has no handle→tweets foreign
key, so the only cascade, displayed_tweets→tweets, never fires); and
referential integrity of the audit table is preserved by every
operation. -/
theorem tweets_never_deleted_and_cascade_safe
    (db : DB) (op : DBOp) (i : Nat)
    (hri : refIntegrity db = true) :
    (∀ t ∈ db.tweets, ∃ u ∈ (applyOp db op).tweets, u.tweet_id = t.tweet_id) ∧
    db.tweets.length ≤ (applyOp db op).tweets.length ∧
    (applyOp db (DBOp.deleteH i)).tweets = db.tweets ∧
    refIntegrity (applyOp db op) = true := by
  refine ⟨?_, ?_, rfl, ?_⟩
  · intro t ht
    cases op with
    | addH h a nid now => exact ⟨t, ht, rfl⟩
    | toggleH j now => exact ⟨t, ht, rfl⟩
    | deleteH j => exact ⟨t, ht, rfl⟩
    | markD tid nid now =>
        simp only [applyOp]
        by_cases hc : hasTweetId db.tweets tid
        · simp only [hc, if_pos]
          exact markStore_mem_image db.tweets tid now t ht
        · rw [if_neg hc]
          exact ⟨t, ht, rfl⟩
    | refreshOp api now =>
        exact ⟨t, refreshHandles_mem _ api db.tweets now t ht, rfl⟩
  · cases op with
    | addH h a nid now => exact Nat.le_refl _
    | toggleH j now => exact Nat.le_refl _
    | deleteH j => exact Nat.le_refl _
    | markD tid nid now =>
        simp only [applyOp]
        by_cases hc : hasTweetId db.tweets tid
        · simp only [hc, if_pos]
          rw [markStore_length]
        · rw [if_neg hc]
    | refreshOp api now =>
        have := refreshHandles_length (db.handles.filter (fun h => h.is_active))
          api db.tweets now
        simp only [applyOp]
        unfold refresh
        omega
  · unfold refIntegrity at hri ⊢
    rw [List.all_eq_true] at hri ⊢
    cases op with
    | addH h a nid now => exact hri
    | toggleH j now => exact hri
    | deleteH j => exact hri
    | markD tid nid now =>
        simp only [applyOp]
        by_cases hc : hasTweetId db.tweets tid
        · simp only [hc, if_pos]
          intro d hd
          by_cases hdup : db.displayed.any (fun d => d.tweet_id == tid)
          · simp only [hdup, if_pos] at hd
            exact hasTweetId_markStore db.tweets d.tweet_id tid now (hri d hd)
          · rw [if_neg hdup] at hd
            rcases List.mem_append.mp hd with hold | hnew
            · exact hasTweetId_markStore db.tweets d.tweet_id tid now (hri d hold)
            · rcases List.mem_singleton.mp hnew with rfl
              exact hasTweetId_markStore db.tweets tid tid now hc
        · rw [if_neg hc]
          exact hri
    | refreshOp api now =>
        intro d hd
        exact refresh_pres db.handles api db.tweets now d.tweet_id (hri d hd)

/-- C7 witness: the frame/cascade properties applied to a concrete
state and the delete of handle id 1. -/
theorem tweets_never_deleted_and_cascade_safe_witness :
    refIntegrity demoDB = true ∧
    ((∀ t ∈ demoDB.tweets, ∃ u ∈ (applyOp demoDB (DBOp.deleteH 1)).tweets,
        u.tweet_id = t.tweet_id) ∧
      demoDB.tweets.length ≤ (applyOp demoDB (DBOp.deleteH 1)).tweets.length ∧
      (applyOp demoDB (DBOp.deleteH 1)).tweets = demoDB.tweets ∧
      refIntegrity (applyOp demoDB (DBOp.deleteH 1)) = true) :=
  ⟨by decide, tweets_never_deleted_and_cascade_safe demoDB (DBOp.deleteH 1) 1 (by decide)⟩

theorem markDisplayed_some_eq (s s2 : List Tweet) (tid : String) (now : Nat)
    (h : markDisplayed s tid now = some s2) : s2 = markStore s tid now := by
  unfold markDisplayed at h
  by_cases hc : hasTweetId s tid
  · rw [if_pos hc] at h
    exact (Option.some.inj h).symm
  · rw [if_neg hc] at h
    cases h

/-- C8 theorem: when a tweet is shown, the round's first request is the
mark-displayed call for it, the next-tweet request comes only after it,
and a successfully returned next tweet never carries the id just
marked. -/
theorem mark_before_next_prevents_repeat
    (s : List Tweet) (st : DisplayState) (t : Tweet) (now : Nat)
    (hcur : st.currentTweet = some t) :
    (∃ rest, (clientServerRound s st now).2.2
        = Request.markDisplayedReq t.tweet_id :: rest) ∧
    ((clientServerRound s st now).2.1.error = none →
      ∀ u, (clientServerRound s st now).2.1.currentTweet = some u →
        u.tweet_id ≠ t.tweet_id) := by
  unfold clientServerRound
  rw [hcur]
  dsimp only
  unfold serverMark
  cases hm : markDisplayed s t.tweet_id now with
  | none =>
      dsimp only
      unfold fetchNextTweet
      rw [hcur]
      dsimp only
      refine ⟨⟨[], rfl⟩, ?_⟩
      intro herr
      unfold handleFetchErr at herr
      cases herr
  | some s2 =>
      dsimp only
      unfold fetchNextTweet
      rw [hcur]
      dsimp only
      unfold serverNext
      cases hg : getNext s2 with
      | none =>
          dsimp only
          refine ⟨⟨[Request.getNextReq], rfl⟩, ?_⟩
          intro herr
          unfold handleFetchErr at herr
          cases herr
      | some u =>
          dsimp only
          refine ⟨⟨[Request.getNextReq], rfl⟩, ?_⟩
          intro _ v hv
          have hvu : v = u := by
            have := hv
            simp only [Option.some.injEq] at this
            exact this.symm
          subst hvu
          have hs2 : s2 = markStore s t.tweet_id now :=
            markDisplayed_some_eq s s2 t.tweet_id now hm
          have hmk : markedAll s2 t.tweet_id = true := by
            rw [hs2]; exact markedAll_markStore_self s t.tweet_id now
          exact getNext_ne_of_markedAll s2 t.tweet_id v hmk hg

/-- C8 witness: with demoT2 shown over the three-tweet store, the round
marks "t2" first and the successful next tweet differs from it. -/
theorem mark_before_next_prevents_repeat_witness :
    demoDisplay.currentTweet = some demoT2 ∧
    ((∃ rest, (clientServerRound demoStore3 demoDisplay 7).2.2
        = Request.markDisplayedReq demoT2.tweet_id :: rest) ∧
      ((clientServerRound demoStore3 demoDisplay 7).2.1.error = none →
        ∀ u, (clientServerRound demoStore3 demoDisplay 7).2.1.currentTweet = some u →
          u.tweet_id ≠ demoT2.tweet_id)) :=
  ⟨rfl, mark_before_next_prevents_repeat demoStore3 demoDisplay demoT2 7 rfl⟩

/-- C9 theorem: a failed mark request issues no next-tweet request and
surfaces the error message with loading cleared; a failed next request
likewise; in both cases currentTweet is unchanged; the 404 message is
the distinct "no more tweets" one. -/
theorem fetch_error_degrades_gracefully
    (st : DisplayState) (markResp : Except HttpErr Unit)
    (nextResp : Except HttpErr Tweet) :
    (∀ e, markResp = Except.error e → ∀ t, st.currentTweet = some t →
      (fetchNextTweet st markResp nextResp).2 = [Request.markDisplayedReq t.tweet_id] ∧
      Request.getNextReq ∉ (fetchNextTweet st markResp nextResp).2 ∧
      (fetchNextTweet st markResp nextResp).1.currentTweet = st.currentTweet ∧
      (fetchNextTweet st markResp nextResp).1.error = some (errMsg e) ∧
      (fetchNextTweet st markResp nextResp).1.loading = false) ∧
    (∀ e, nextResp = Except.error e →
      (markResp = Except.ok () ∨ st.currentTweet = none) →
      (fetchNextTweet st markResp nextResp).1.currentTweet = st.currentTweet ∧
      (fetchNextTweet st markResp nextResp).1.error = some (errMsg e) ∧
      (fetchNextTweet st markResp nextResp).1.loading = false) ∧
    (errMsg HttpErr.notFound = noMoreMsg ∧ errMsg HttpErr.other = failMsg ∧
      noMoreMsg ≠ failMsg) := by
  refine ⟨?_, ?_, rfl, rfl, by decide⟩
  · intro e he t hcur
    subst he
    unfold fetchNextTweet
    rw [hcur]
    dsimp only
    unfold handleFetchErr
    refine ⟨rfl, ?_, by simp [hcur], rfl, rfl⟩
    intro hmem
    rcases List.mem_singleton.mp hmem with h
    cases h
  · intro e he hok
    subst he
    unfold fetchNextTweet
    cases hcur : st.currentTweet with
    | none =>
        dsimp only
        unfold handleFetchErr
        exact ⟨by simp [hcur], rfl, rfl⟩
    | some t =>
        rcases hok with hok | hnone
        · subst hok
          dsimp only
          unfold handleFetchErr
          exact ⟨by simp [hcur], rfl, rfl⟩
        · rw [hcur] at hnone
          cases hnone

/-- C9 witness: a network failure on the mark request and a 404 on the
next request, from the demo display state. -/
theorem fetch_error_degrades_gracefully_witness :
    ((Except.error HttpErr.other : Except HttpErr Unit) = Except.error HttpErr.other ∧
      demoDisplay.currentTweet = some demoT2) ∧
    ((∀ e, (Except.error HttpErr.other : Except HttpErr Unit) = Except.error e →
      ∀ t, demoDisplay.currentTweet = some t →
      (fetchNextTweet demoDisplay (Except.error HttpErr.other)
          (Except.error HttpErr.notFound)).2 = [Request.markDisplayedReq t.tweet_id] ∧
      Request.getNextReq ∉ (fetchNextTweet demoDisplay (Except.error HttpErr.other)
          (Except.error HttpErr.notFound)).2 ∧
      (fetchNextTweet demoDisplay (Except.error HttpErr.other)
          (Except.error HttpErr.notFound)).1.currentTweet = demoDisplay.currentTweet ∧
      (fetchNextTweet demoDisplay (Except.error HttpErr.other)
          (Except.error HttpErr.notFound)).1.error = some (errMsg e) ∧
      (fetchNextTweet demoDisplay (Except.error HttpErr.other)
          (Except.error HttpErr.notFound)).1.loading = false) ∧
    (∀ e, (Except.error HttpErr.notFound : Except HttpErr Tweet) = Except.error e →
      ((Except.error HttpErr.other : Except HttpErr Unit) = Except.ok () ∨
        demoDisplay.currentTweet = none) →
      (fetchNextTweet demoDisplay (Except.error HttpErr.other)
          (Except.error HttpErr.notFound)).1.currentTweet = demoDisplay.currentTweet ∧
      (fetchNextTweet demoDisplay (Except.error HttpErr.other)
          (Except.error HttpErr.notFound)).1.error = some (errMsg e) ∧
      (fetchNextTweet demoDisplay (Except.error HttpErr.other)
          (Except.error HttpErr.notFound)).1.loading = false) ∧
    (errMsg HttpErr.notFound = noMoreMsg ∧ errMsg HttpErr.other = failMsg ∧
      noMoreMsg ≠ failMsg)) :=
  ⟨⟨rfl, rfl⟩,
    fetch_error_degrades_gracefully demoDisplay
      (Except.error HttpErr.other) (Except.error HttpErr.notFound)⟩

/-- C10 theorem: the Admin Client submits nothing when the trimmed
input is empty, and otherwise submits exactly the trimmed handle with
is_active = true — every handle it creates is active. -/
theorem admin_add_handle_active_trimmed (s : String) :
    (jsTrim s = "" → handleAddHandle s = none) ∧
    (jsTrim s ≠ "" →
      handleAddHandle s = some { handle := jsTrim s, is_active := true }) ∧
    (∀ r, handleAddHandle s = some r → r.is_active = true ∧ r.handle = jsTrim s) := by
  by_cases h : jsTrim s = ""
  · refine ⟨fun _ => ?_, fun hne => absurd h hne, ?_⟩
    · unfold handleAddHandle
      simp [h]
    · intro r hr
      unfold handleAddHandle at hr
      simp [h] at hr
  · refine ⟨fun hh => absurd hh h, fun _ => ?_, ?_⟩
    · unfold handleAddHandle
      simp [h]
    · intro r hr
      unfold handleAddHandle at hr
      simp [h] at hr
      rw [← hr]
      exact ⟨rfl, rfl⟩

/-- C10 witness: the input "  bob " is trimmed to "bob" and submitted
active. -/
theorem admin_add_handle_active_trimmed_witness :
    jsTrim "  bob " ≠ "" ∧
    ((jsTrim "  bob " = "" → handleAddHandle "  bob " = none) ∧
      (jsTrim "  bob " ≠ "" →
        handleAddHandle "  bob "
          = some { handle := jsTrim "  bob ", is_active := true }) ∧
      (∀ r, handleAddHandle "  bob " = some r →
        r.is_active = true ∧ r.handle = jsTrim "  bob ")) :=
  ⟨by decide, admin_add_handle_active_trimmed "  bob "⟩

/-- C6 counterexample: pressing n (or ArrowRight) during the initial
load starts a second request while the first is still in flight — the
keydown handler calls fetchNextTweet with no loading-flag guard, so the
claimed no-overlap property is false. -/
theorem display_overlap_possible : ¬ neverOverlaps := fun h =>
  absurd (h [ClientEvent.keyNext]) (by decide)

/-- C6 amended theorem: the on-screen Next button is guarded by the
loading flag, and within a single fetchNextTweet invocation the two
requests are issued strictly in sequence (at most two, with the
next-tweet request only ever after the mark request); but the keyboard
handler and the timer callback start a fetch regardless of the loading
flag, so overlapping requests are reachable from events alone. -/
theorem display_request_guards (cs : ClientState) (hload : cs.loading = true) :
    stepClient cs ClientEvent.buttonNext = cs ∧
    (stepClient cs ClientEvent.keyNext).inflight = cs.inflight + 1 ∧
    (cs.isPaused = false → cs.hasTweet = true →
      (stepClient cs ClientEvent.timerTick).inflight = cs.inflight + 1) ∧
    (∀ (st : DisplayState) (markResp : Except HttpErr Unit)
        (nextResp : Except HttpErr Tweet),
      (fetchNextTweet st markResp nextResp).2.length ≤ 2 ∧
      (Request.getNextReq ∈ (fetchNextTweet st markResp nextResp).2 →
        ∀ t, st.currentTweet = some t →
          (fetchNextTweet st markResp nextResp).2
            = [Request.markDisplayedReq t.tweet_id, Request.getNextReq])) := by
  refine ⟨?_, rfl, ?_, ?_⟩
  · unfold stepClient
    rw [if_pos hload]
  · intro hp ht
    unfold stepClient
    rw [hp, ht]
    rfl
  · intro st markResp nextResp
    unfold fetchNextTweet
    cases hcur : st.currentTweet with
    | none =>
        cases nextResp with
        | error e => exact ⟨by simp, fun _ t ht => by cases ht⟩
        | ok u => exact ⟨by simp, fun _ t ht => by cases ht⟩
    | some t0 =>
        cases markResp with
        | error e =>
            dsimp only
            refine ⟨by simp, ?_⟩
            intro hmem t ht
            rcases List.mem_singleton.mp hmem with h2
            cases h2
        | ok u0 =>
            cases nextResp with
            | error e =>
                dsimp only
                refine ⟨by simp, ?_⟩
                intro _ t ht
                rcases Option.some.inj ht with rfl
                rfl
            | ok u =>
                dsimp only
                refine ⟨by simp, ?_⟩
                intro _ t ht
                rcases Option.some.inj ht with rfl
                rfl

/-- C6 amended witness: a concrete loading state exercising the button
guard, the unguarded keypress, the unguarded timer tick, and the
in-invocation sequencing. -/
theorem display_request_guards_witness :
    (ClientState.mk true true false 1).loading = true ∧
    (stepClient (ClientState.mk true true false 1) ClientEvent.buttonNext
        = ClientState.mk true true false 1 ∧
      (stepClient (ClientState.mk true true false 1) ClientEvent.keyNext).inflight
        = (ClientState.mk true true false 1).inflight + 1 ∧
      ((ClientState.mk true true false 1).isPaused = false →
        (ClientState.mk true true false 1).hasTweet = true →
        (stepClient (ClientState.mk true true false 1) ClientEvent.timerTick).inflight
          = (ClientState.mk true true false 1).inflight + 1) ∧
      (∀ (st : DisplayState) (markResp : Except HttpErr Unit)
          (nextResp : Except HttpErr Tweet),
        (fetchNextTweet st markResp nextResp).2.length ≤ 2 ∧
        (Request.getNextReq ∈ (fetchNextTweet st markResp nextResp).2 →
          ∀ t, st.currentTweet = some t →
            (fetchNextTweet st markResp nextResp).2
              = [Request.markDisplayedReq t.tweet_id, Request.getNextReq]))) :=
  ⟨rfl, display_request_guards (ClientState.mk true true false 1) rfl⟩
